import Mathlib

/-!
Verification of the Data Validation Module (`src/validation.js`).

The module exports three validators — `validateEmail`, `validatePassword`,
`validatePhone` — each returning `{ valid : boolean, errors : string[] }`.
We embed the code shallowly:

* JavaScript strings are modelled as `List Char` (sequences of code points);
  the concrete inputs exercised by the claims are ASCII, where this agrees
  with JavaScript's UTF-16 view.
* An input value is a `JSValue`: `null`, `undefined`, or a present value,
  which the code immediately converts with `String(value)`; a present value
  is therefore represented by its string form.
* The three regex literals of the source are embedded as terms of a small
  regex language `Regex` (character classes, `+`, counted repetition `{m,n}`,
  concatenation) that covers exactly the constructs they use.  Anchored
  `^r$.test(s)` is full-match (`rmatch`), unanchored `r.test(s)` is
  substring search (`rsearch`).
-/

set_option maxHeartbeats 1000000

/-- The whitespace class of JavaScript (`\s`, `String.prototype.trim`):
WhiteSpace and LineTerminator code points. -/
def isJsWhitespace (c : Char) : Bool :=
  c == '\t' || c == '\n' || c == '\x0b' || c == '\x0c' || c == '\r' || c == ' ' ||
  c == '\u00A0' || c == '\u1680' || (decide ('\u2000' ≤ c) && decide (c ≤ '\u200A')) ||
  c == '\u2028' || c == '\u2029' || c == '\u202F' || c == '\u205F' ||
  c == '\u3000' || c == '\uFEFF'

/-- `String.prototype.trim`: remove leading and trailing whitespace. -/
def jsTrim (s : List Char) : List Char :=
  ((s.dropWhile isJsWhitespace).reverse.dropWhile isJsWhitespace).reverse

/-- An input value as the validators see it: absent (`null`/`undefined`) or
present; a present value is represented by its `String(value)` form. -/
inductive JSValue where
  | jsNull : JSValue
  | jsUndefined : JSValue
  | jsStr : List Char → JSValue
deriving DecidableEq

/-- `normalizeInput` from the source: null/undefined become the empty string,
a present value is stringified and trimmed. -/
def normalizeInput : JSValue → List Char
  | .jsNull => []
  | .jsUndefined => []
  | .jsStr s => jsTrim s

/-- The `{ valid, errors }` object each validator returns. -/
structure ValidationResult where
  valid : Bool
  errors : List String
deriving DecidableEq, Repr

/-- `result(errors)` from the source: `valid` is `errors.length === 0`. -/
def result (errors : List String) : ValidationResult :=
  ⟨errors.length == 0, errors⟩

/-- The frozen `ERROR_MESSAGES` table of the source. -/
structure ErrorMessages where
  email_format : String
  password_length : String
  password_number : String
  password_special : String
  phone_format : String

def ERROR_MESSAGES : ErrorMessages :=
  ⟨"Invalid email format",
   "Password must be at least 8 characters long",
   "Password must contain at least one number",
   "Password must contain at least one special character",
   "Invalid phone number format"⟩

/-! ### The regex language used by the three literals -/

/-- Regex constructs appearing in the source's literals: a single character
of a class, one-or-more of a class (`+` applied to a class), counted
repetition of a class (`{lo,hi}`), and concatenation. -/
inductive Regex where
  | charC : (Char → Bool) → Regex
  | plusC : (Char → Bool) → Regex
  | repC : (Char → Bool) → Nat → Nat → Regex
  | seq : Regex → Regex → Regex

/-- Language membership: `Matches r s` means the whole string `s` is in the
language of `r`. -/
def Matches : Regex → List Char → Prop
  | .charC p, s => ∃ c, s = [c] ∧ p c = true
  | .plusC p, s => s ≠ [] ∧ ∀ c ∈ s, p c = true
  | .repC p lo hi, s => lo ≤ s.length ∧ s.length ≤ hi ∧ ∀ c ∈ s, p c = true
  | .seq r1 r2, s => ∃ s1 s2, s = s1 ++ s2 ∧ Matches r1 s1 ∧ Matches r2 s2

/-- Executable full-match, i.e. `^r$.test(s)`. -/
def rmatch : Regex → List Char → Bool
  | .charC p, s =>
    match s with
    | [c] => p c
    | _ => false
  | .plusC p, s => !s.isEmpty && s.all p
  | .repC p lo hi, s => decide (lo ≤ s.length) && decide (s.length ≤ hi) && s.all p
  | .seq r1 r2, s =>
    (List.range (s.length + 1)).any fun i => rmatch r1 (s.take i) && rmatch r2 (s.drop i)

/-- Executable unanchored test, i.e. `r.test(s)`: some contiguous segment of
`s` matches `r`. -/
def rsearch (r : Regex) (s : List Char) : Bool :=
  (List.range (s.length + 1)).any fun i =>
    (List.range (s.length - i + 1)).any fun j => rmatch r ((s.drop i).take j)

/-- `[^\s@]`: not whitespace and not `@`. -/
def nonSpaceAt (c : Char) : Bool := !isJsWhitespace c && c != '@'

/-- `\d`: an ASCII digit. -/
def isDigitChar (c : Char) : Bool := decide ('0' ≤ c) && decide (c ≤ '9')

/-- `[1-9]`. -/
def isNonZeroDigit (c : Char) : Bool := decide ('1' ≤ c) && decide (c ≤ '9')

/-- `EMAIL_REGEX = /^[^\s@]+@[^\s@]+\.[^\s@]+$/`. -/
def EMAIL_REGEX : Regex :=
  .seq (.plusC nonSpaceAt)
    (.seq (.charC (· == '@'))
      (.seq (.plusC nonSpaceAt)
        (.seq (.charC (· == '.')) (.plusC nonSpaceAt))))

/-- `E164_REGEX = /^\+[1-9]\d{7,14}$/`. -/
def E164_REGEX : Regex :=
  .seq (.charC (· == '+')) (.seq (.charC isNonZeroDigit) (.repC isDigitChar 7 14))

/-- The explicit whitelist inside `PASSWORD_SPECIAL_REGEX`'s character class. -/
def PASSWORD_SPECIAL_CHARS : List Char :=
  ['!', '@', '#', '$', '%', '^', '&', '*', '(', ')', '_', '+', '-', '=',
   '[', ']', '\x7b', '\x7d', ';', '\'', ':', '\"', '\\', '|', ',', '.', '<', '>', '/', '?']

/-- The character class of `PASSWORD_SPECIAL_REGEX`. -/
def isPasswordSpecial (c : Char) : Bool := PASSWORD_SPECIAL_CHARS.contains c

/-- `PASSWORD_SPECIAL_REGEX`, an unanchored single-class regex. -/
def PASSWORD_SPECIAL_REGEX : Regex := .charC isPasswordSpecial

/-- The unanchored `/\d/` literal used by the password digit check. -/
def DIGIT_REGEX : Regex := .charC isDigitChar

/-! ### The validators -/

/-- `validateEmail` from the source. -/
def validateEmail (value : JSValue) : ValidationResult :=
  let v := normalizeInput value
  let errors : List String :=
    if !rmatch EMAIL_REGEX v then [ERROR_MESSAGES.email_format] else []
  result errors

/-- `validatePassword` from the source: three cumulative checks in a fixed
order, each appending its message on failure. -/
def validatePassword (value : JSValue) : ValidationResult :=
  let v := normalizeInput value
  let errors : List String :=
    (if v.length < 8 then [ERROR_MESSAGES.password_length] else []) ++
    (if !rsearch DIGIT_REGEX v then [ERROR_MESSAGES.password_number] else []) ++
    (if !rsearch PASSWORD_SPECIAL_REGEX v then [ERROR_MESSAGES.password_special] else [])
  result errors

/-- `validatePhone` from the source. -/
def validatePhone (value : JSValue) : ValidationResult :=
  let v := normalizeInput value
  let errors : List String :=
    if !rmatch E164_REGEX v then [ERROR_MESSAGES.phone_format] else []
  result errors

/-- The five message strings of the `ERROR_MESSAGES` table. -/
def errorMessageValues : List String :=
  [ERROR_MESSAGES.email_format, ERROR_MESSAGES.password_length,
   ERROR_MESSAGES.password_number, ERROR_MESSAGES.password_special,
   ERROR_MESSAGES.phone_format]

/-! ### Soundness of the matcher -/

/-- The executable matcher decides language membership. -/
theorem rmatch_iff (r : Regex) (s : List Char) : rmatch r s = true ↔ Matches r s := by
  induction r generalizing s with
  | charC p =>
    match s with
    | [] => simp [rmatch, Matches]
    | [c] => simp [rmatch, Matches]
    | a :: b :: t => simp [rmatch, Matches]
  | plusC p =>
    simp [rmatch, Matches, List.all_eq_true, List.isEmpty_iff]
  | repC p lo hi =>
    simp [rmatch, Matches, List.all_eq_true, and_assoc]
  | seq r1 r2 ih1 ih2 =>
    simp only [rmatch, List.any_eq_true, List.mem_range, Bool.and_eq_true, Matches,
      Nat.lt_succ_iff]
    constructor
    · rintro ⟨i, _, h1, h2⟩
      exact ⟨s.take i, s.drop i, (List.take_append_drop i s).symm, (ih1 _).1 h1, (ih2 _).1 h2⟩
    · rintro ⟨s1, s2, rfl, h1, h2⟩
      refine ⟨s1.length, by simp, ?_, ?_⟩
      · rw [List.take_left]
        exact (ih1 _).2 h1
      · rw [List.drop_left]
        exact (ih2 _).2 h2

/-- An unanchored single-character-class test succeeds exactly when some
character of the string is in the class. -/
theorem rsearch_charC (p : Char → Bool) (s : List Char) :
    rsearch (.charC p) s = true ↔ ∃ c ∈ s, p c = true := by
  simp only [rsearch, List.any_eq_true, List.mem_range, Nat.lt_succ_iff]
  constructor
  · rintro ⟨i, _, j, _, h⟩
    rw [rmatch_iff] at h
    obtain ⟨c, hc, hpc⟩ := h
    refine ⟨c, ?_, hpc⟩
    have : c ∈ (s.drop i).take j := by simp [hc]
    exact List.mem_of_mem_drop (List.mem_of_mem_take this)
  · rintro ⟨c, hc, hpc⟩
    obtain ⟨i, hi, rfl⟩ := List.mem_iff_getElem.1 hc
    refine ⟨i, Nat.le_of_lt hi, 1, ?_, ?_⟩
    · omega
    · rw [List.drop_eq_getElem_cons hi]
      simp only [List.take_succ_cons, List.take_zero]
      exact hpc

/-! ### Characterizations of the three regex literals -/

/-- The language of `EMAIL_REGEX`: a nonempty run of non-whitespace non-`@`
characters, `@`, a nonempty run, `.`, a nonempty run. -/
theorem matches_email_iff (s : List Char) :
    Matches EMAIL_REGEX s ↔
      ∃ a b c : List Char, a ≠ [] ∧ b ≠ [] ∧ c ≠ [] ∧
        (∀ x ∈ a, nonSpaceAt x = true) ∧ (∀ x ∈ b, nonSpaceAt x = true) ∧
        (∀ x ∈ c, nonSpaceAt x = true) ∧ s = a ++ '@' :: (b ++ '.' :: c) := by
  simp only [EMAIL_REGEX, Matches]
  constructor
  · rintro ⟨a, r1, rfl, ⟨ha, hpa⟩, sat, r2, rfl, ⟨x, rfl, hx⟩, b, r3, rfl, ⟨hb, hpb⟩,
      sdot, c, rfl, ⟨y, rfl, hy⟩, hc, hpc⟩
    rw [beq_iff_eq] at hx hy
    subst hx; subst hy
    exact ⟨a, b, c, ha, hb, hc, hpa, hpb, hpc, by simp⟩
  · rintro ⟨a, b, c, ha, hb, hc, hpa, hpb, hpc, rfl⟩
    exact ⟨a, '@' :: (b ++ '.' :: c), by simp, ⟨ha, hpa⟩,
      ['@'], b ++ '.' :: c, rfl, ⟨'@', rfl, by simp⟩,
      b, '.' :: c, rfl, ⟨hb, hpb⟩,
      ['.'], c, rfl, ⟨'.', rfl, by simp⟩, hc, hpc⟩

/-- The language of `E164_REGEX`: `+`, a digit `1`-`9`, then 7 to 14 digits. -/
theorem matches_e164_iff (s : List Char) :
    Matches E164_REGEX s ↔
      ∃ d ds, s = '+' :: d :: ds ∧ isNonZeroDigit d = true ∧
        (∀ x ∈ ds, isDigitChar x = true) ∧ 7 ≤ ds.length ∧ ds.length ≤ 14 := by
  simp only [E164_REGEX, Matches]
  constructor
  · rintro ⟨sp, r1, rfl, ⟨x, rfl, hx⟩, sd, ds, rfl, ⟨d, rfl, hd⟩, hlo, hhi, hds⟩
    rw [beq_iff_eq] at hx
    subst hx
    exact ⟨d, ds, rfl, hd, hds, hlo, hhi⟩
  · rintro ⟨d, ds, rfl, hd, hds, hlo, hhi⟩
    exact ⟨['+'], d :: ds, rfl, ⟨'+', rfl, by simp⟩, [d], ds, rfl, ⟨d, rfl, hd⟩, hlo, hhi, hds⟩

/-! ### Trim lemmas -/

/-- `dropWhile` is idempotent. -/
theorem dropWhile_dropWhile (p : Char → Bool) (l : List Char) :
    (l.dropWhile p).dropWhile p = l.dropWhile p := by
  induction l with
  | nil => simp
  | cons a t ih =>
    by_cases h : p a = true
    · rw [List.dropWhile_cons_of_pos h]
      exact ih
    · rw [List.dropWhile_cons_of_neg h, List.dropWhile_cons_of_neg h]

/-- If `dropWhile` fixes a list, it fixes every initial segment of it. -/
theorem dropWhile_append_eq_self (p : Char → Bool) (t u : List Char)
    (h : (t ++ u).dropWhile p = t ++ u) : t.dropWhile p = t := by
  cases t with
  | nil => simp
  | cons a t' =>
    by_cases hp : p a = true
    · exfalso
      rw [List.cons_append, List.dropWhile_cons_of_pos hp] at h
      have hlen := congrArg List.length h
      have hle := congrArg List.length (List.takeWhile_append_dropWhile p (t' ++ u))
      simp only [List.length_append, List.length_cons] at hlen hle
      omega
    · exact List.dropWhile_cons_of_neg hp

/-- `jsTrim` is idempotent: trimming a trimmed string changes nothing. -/
theorem jsTrim_idem (s : List Char) : jsTrim (jsTrim s) = jsTrim s := by
  unfold jsTrim
  have hA : (s.dropWhile isJsWhitespace).dropWhile isJsWhitespace =
      s.dropWhile isJsWhitespace := dropWhile_dropWhile _ _
  have hsplit : s.dropWhile isJsWhitespace =
      ((s.dropWhile isJsWhitespace).reverse.dropWhile isJsWhitespace).reverse ++
        ((s.dropWhile isJsWhitespace).reverse.takeWhile isJsWhitespace).reverse := by
    rw [← List.reverse_append, List.takeWhile_append_dropWhile, List.reverse_reverse]
  have h1 : (((s.dropWhile isJsWhitespace).reverse.dropWhile isJsWhitespace).reverse).dropWhile
      isJsWhitespace = ((s.dropWhile isJsWhitespace).reverse.dropWhile isJsWhitespace).reverse := by
    apply dropWhile_append_eq_self isJsWhitespace _
      ((s.dropWhile isJsWhitespace).reverse.takeWhile isJsWhitespace).reverse
    rw [← hsplit]
    exact hA
  rw [h1, List.reverse_reverse, dropWhile_dropWhile]

/-! ### Helper lemmas about the validators -/

/-- An unanchored single-class search, written as a `decide`. -/
theorem rsearch_charC_eq_decide (p : Char → Bool) (s : List Char) :
    rsearch (.charC p) s = decide (∃ c ∈ s, p c = true) := by
  by_cases h : ∃ c ∈ s, p c = true
  · rw [decide_eq_true h]
    exact (rsearch_charC p s).2 h
  · rw [decide_eq_false h]
    exact Bool.eq_false_iff.2 fun ht => h ((rsearch_charC p s).1 ht)

/-- `result` makes `valid` true exactly on an empty error list. -/
theorem result_valid_iff (es : List String) :
    (result es).valid = true ↔ (result es).errors = [] := by
  cases es <;> simp [result]

/-- The error list of `validateEmail` is `[]` or the single format message. -/
theorem validateEmail_errors_cases (v : JSValue) :
    (validateEmail v).errors = [] ∨
      (validateEmail v).errors = [ERROR_MESSAGES.email_format] := by
  by_cases h : rmatch EMAIL_REGEX (normalizeInput v) = true <;>
    simp [validateEmail, result, h]

/-- The error list of `validatePhone` is `[]` or the single format message. -/
theorem validatePhone_errors_cases (v : JSValue) :
    (validatePhone v).errors = [] ∨
      (validatePhone v).errors = [ERROR_MESSAGES.phone_format] := by
  by_cases h : rmatch E164_REGEX (normalizeInput v) = true <;>
    simp [validatePhone, result, h]

/-- Membership in a conditional singleton forces the singleton's element. -/
theorem mem_ite_singleton {e m : String} {b : Prop} [Decidable b]
    (h : e ∈ if b then [m] else ([] : List String)) : e = m := by
  split at h
  · simpa using h
  · simp at h

/-- `result` never reports invalid with an empty error list. -/
theorem result_invalid (es : List String) :
    (result es).valid = false → (result es).errors ≠ [] := by
  intro h he
  have := (result_valid_iff es).2 he
  rw [h] at this
  cases this

/-- Every error reported by `validatePassword` is one of the table's
messages. -/
theorem validatePassword_errors_sub (v : JSValue) :
    ∀ e ∈ (validatePassword v).errors, e ∈ errorMessageValues := by
  intro e he
  simp only [validatePassword, result, List.mem_append] at he
  rcases he with (he | he) | he <;> rw [mem_ite_singleton he] <;> simp [errorMessageValues]

/-! ### Claims -/

/-- C1: for every input value and each of the three validators, the returned
result has `valid = true` if and only if its `errors` list is empty. -/
theorem C1_valid_iff_errors_empty (v : JSValue) :
    ((validateEmail v).valid = true ↔ (validateEmail v).errors = []) ∧
    ((validatePassword v).valid = true ↔ (validatePassword v).errors = []) ∧
    ((validatePhone v).valid = true ↔ (validatePhone v).errors = []) :=
  ⟨result_valid_iff _, result_valid_iff _, result_valid_iff _⟩

/-- C3: `validateEmail` returns valid with an empty error list exactly when
the normalized string is a nonempty run of non-whitespace non-`@` characters,
then `@`, then a nonempty run, then `.`, then a nonempty run; on any other
normalized string it returns exactly the single error "Invalid email format". -/
theorem C3_email_characterization (value : JSValue) :
    (validateEmail value = ⟨true, []⟩ ↔
      ∃ a b c : List Char, a ≠ [] ∧ b ≠ [] ∧ c ≠ [] ∧
        (∀ x ∈ a, nonSpaceAt x = true) ∧ (∀ x ∈ b, nonSpaceAt x = true) ∧
        (∀ x ∈ c, nonSpaceAt x = true) ∧
        normalizeInput value = a ++ '@' :: (b ++ '.' :: c)) ∧
    ((¬∃ a b c : List Char, a ≠ [] ∧ b ≠ [] ∧ c ≠ [] ∧
        (∀ x ∈ a, nonSpaceAt x = true) ∧ (∀ x ∈ b, nonSpaceAt x = true) ∧
        (∀ x ∈ c, nonSpaceAt x = true) ∧
        normalizeInput value = a ++ '@' :: (b ++ '.' :: c)) →
      validateEmail value = ⟨false, [ERROR_MESSAGES.email_format]⟩) := by
  have hkey : rmatch EMAIL_REGEX (normalizeInput value) = true ↔
      ∃ a b c : List Char, a ≠ [] ∧ b ≠ [] ∧ c ≠ [] ∧
        (∀ x ∈ a, nonSpaceAt x = true) ∧ (∀ x ∈ b, nonSpaceAt x = true) ∧
        (∀ x ∈ c, nonSpaceAt x = true) ∧
        normalizeInput value = a ++ '@' :: (b ++ '.' :: c) :=
    (rmatch_iff _ _).trans (matches_email_iff _)
  by_cases h : rmatch EMAIL_REGEX (normalizeInput value) = true
  · have heq : validateEmail value = ⟨true, []⟩ := by simp [validateEmail, result, h]
    rw [heq]
    exact ⟨⟨fun _ => hkey.1 h, fun _ => rfl⟩, fun hno => absurd (hkey.1 h) hno⟩
  · have heq : validateEmail value = ⟨false, [ERROR_MESSAGES.email_format]⟩ := by
      simp [validateEmail, result, h]
    rw [heq]
    refine ⟨⟨fun habs => ?_, fun hex => absurd (hkey.2 hex) h⟩, fun _ => rfl⟩
    exact absurd (congrArg ValidationResult.valid habs) (by simp)

/-- C4: `validatePhone` returns valid with an empty error list exactly when
the normalized string is `+`, a digit `1`-`9`, then 7 to 14 further digits;
on any other normalized string it returns the single error
"Invalid phone number format". -/
theorem C4_phone_characterization (value : JSValue) :
    (validatePhone value = ⟨true, []⟩ ↔
      ∃ d ds, normalizeInput value = '+' :: d :: ds ∧ isNonZeroDigit d = true ∧
        (∀ x ∈ ds, isDigitChar x = true) ∧ 7 ≤ ds.length ∧ ds.length ≤ 14) ∧
    ((¬∃ d ds, normalizeInput value = '+' :: d :: ds ∧ isNonZeroDigit d = true ∧
        (∀ x ∈ ds, isDigitChar x = true) ∧ 7 ≤ ds.length ∧ ds.length ≤ 14) →
      validatePhone value = ⟨false, [ERROR_MESSAGES.phone_format]⟩) := by
  have hkey : rmatch E164_REGEX (normalizeInput value) = true ↔
      ∃ d ds, normalizeInput value = '+' :: d :: ds ∧ isNonZeroDigit d = true ∧
        (∀ x ∈ ds, isDigitChar x = true) ∧ 7 ≤ ds.length ∧ ds.length ≤ 14 :=
    (rmatch_iff _ _).trans (matches_e164_iff _)
  by_cases h : rmatch E164_REGEX (normalizeInput value) = true
  · refine ⟨?_, fun hno => absurd (hkey.1 h) hno⟩
    simp only [validatePhone, result, h]
    exact ⟨fun _ => hkey.1 h, fun _ => by simp⟩
  · refine ⟨?_, fun _ => by simp [validatePhone, result, h]⟩
    simp only [validatePhone, result, h]
    constructor
    · intro heq
      exact absurd (congrArg ValidationResult.errors heq) (by simp)
    · intro hex
      exact absurd (hkey.2 hex) h

/-- C10: `validateEmail` accepts a trailing dot and consecutive dots after
the `@`, since `.` itself is a non-whitespace non-`@` character. -/
theorem C10_email_extra_dots :
    validateEmail (.jsStr "user@test.com.".data) = ⟨true, []⟩ ∧
    validateEmail (.jsStr "a@b..c".data) = ⟨true, []⟩ := by
  exact ⟨by decide, by decide⟩

/-- C2: `validatePassword` evaluates all three checks regardless of earlier
failures, appends the fixed message of each failing check in the fixed order
length, number, special, and is valid exactly when all three checks pass. -/
theorem C2_password_cumulative_checks (value : JSValue) :
    ((validatePassword value).errors =
      (if (normalizeInput value).length < 8
        then [ERROR_MESSAGES.password_length] else []) ++
      (if ¬∃ c ∈ normalizeInput value, isDigitChar c = true
        then [ERROR_MESSAGES.password_number] else []) ++
      (if ¬∃ c ∈ normalizeInput value, isPasswordSpecial c = true
        then [ERROR_MESSAGES.password_special] else [])) ∧
    ((validatePassword value).valid = true ↔
      (8 ≤ (normalizeInput value).length ∧
        (∃ c ∈ normalizeInput value, isDigitChar c = true) ∧
        ∃ c ∈ normalizeInput value, isPasswordSpecial c = true)) := by
  simp only [validatePassword, result, DIGIT_REGEX, PASSWORD_SPECIAL_REGEX,
    rsearch_charC_eq_decide]
  by_cases h8 : (normalizeInput value).length < 8 <;>
    by_cases hd : ∃ c ∈ normalizeInput value, isDigitChar c = true <;>
      by_cases hs : ∃ c ∈ normalizeInput value, isPasswordSpecial c = true <;>
        simp_all [Nat.not_lt]

/-- C5: the special-character check succeeds exactly when the string contains
a character of the fixed whitelist, whose members are neither spaces nor
letters nor digits; `validatePassword` accepts "Passw0rd!" and "Password1_". -/
theorem C5_special_whitelist :
    (∀ s : List Char, rsearch PASSWORD_SPECIAL_REGEX s = true ↔
      ∃ c ∈ s, isPasswordSpecial c = true) ∧
    (∀ c : Char, isPasswordSpecial c = true ↔ c ∈ PASSWORD_SPECIAL_CHARS) ∧
    (∀ c ∈ PASSWORD_SPECIAL_CHARS, ¬(c = ' ' ∨ c.isAlpha = true ∨ c.isDigit = true)) ∧
    validatePassword (.jsStr "Passw0rd!".data) = ⟨true, []⟩ ∧
    validatePassword (.jsStr "Password1_".data) = ⟨true, []⟩ := by
  refine ⟨fun s => rsearch_charC _ s, fun c => ?_, by decide, by decide, by decide⟩
  simp [isPasswordSpecial, List.contains]

/-- C6: a missing value is normalized to the empty string, a present value is
stringified and trimmed, and every validator depends on its input only
through this shared normalization. -/
theorem C6_shared_normalization :
    (normalizeInput .jsNull = [] ∧ normalizeInput .jsUndefined = []) ∧
    (∀ s : List Char, normalizeInput (.jsStr s) = jsTrim s) ∧
    (∀ v w : JSValue, normalizeInput v = normalizeInput w →
      validateEmail v = validateEmail w ∧ validatePassword v = validatePassword w ∧
        validatePhone v = validatePhone w) := by
  refine ⟨⟨rfl, rfl⟩, fun s => rfl, fun v w h => ⟨?_, ?_, ?_⟩⟩ <;>
    simp [validateEmail, validatePassword, validatePhone, h]

/-- C7: the validators are total functions into `ValidationResult`; a failure
is visible only as a nonempty `errors` list, and every reported string is one
of the five fixed messages of the table. -/
theorem C7_no_throw_errors_only (v : JSValue) :
    (((validateEmail v).valid = false → (validateEmail v).errors ≠ []) ∧
      ∀ e ∈ (validateEmail v).errors, e ∈ errorMessageValues) ∧
    (((validatePassword v).valid = false → (validatePassword v).errors ≠ []) ∧
      ∀ e ∈ (validatePassword v).errors, e ∈ errorMessageValues) ∧
    (((validatePhone v).valid = false → (validatePhone v).errors ≠ []) ∧
      ∀ e ∈ (validatePhone v).errors, e ∈ errorMessageValues) := by
  refine ⟨⟨result_invalid _, ?_⟩, ⟨result_invalid _, validatePassword_errors_sub v⟩,
    ⟨result_invalid _, ?_⟩⟩
  · rcases validateEmail_errors_cases v with h | h <;> rw [h] <;> simp [errorMessageValues]
  · rcases validatePhone_errors_cases v with h | h <;> rw [h] <;> simp [errorMessageValues]

/-- C8: each validator is deterministic, and re-validating the trimmed string
form of a present value gives the same result as validating the value. -/
theorem C8_determinism_and_stability (v : JSValue) (s : List Char) :
    (validateEmail v = validateEmail v ∧ validatePassword v = validatePassword v ∧
      validatePhone v = validatePhone v) ∧
    (validateEmail (.jsStr (jsTrim s)) = validateEmail (.jsStr s) ∧
     validatePassword (.jsStr (jsTrim s)) = validatePassword (.jsStr s) ∧
     validatePhone (.jsStr (jsTrim s)) = validatePhone (.jsStr s)) := by
  refine ⟨⟨rfl, rfl, rfl⟩, ?_, ?_, ?_⟩ <;>
    simp [validateEmail, validatePassword, validatePhone, normalizeInput, jsTrim_idem]

/-- C9: every reported error is one of the five table messages, no message is
duplicated within one result, and the error list has length at most 1 for
email and phone and at most 3 for password. -/
theorem C9_error_lists_shape (v : JSValue) :
    ((∀ e ∈ (validateEmail v).errors, e ∈ errorMessageValues) ∧
     (∀ e ∈ (validatePassword v).errors, e ∈ errorMessageValues) ∧
     (∀ e ∈ (validatePhone v).errors, e ∈ errorMessageValues)) ∧
    ((validateEmail v).errors.Nodup ∧ (validatePassword v).errors.Nodup ∧
      (validatePhone v).errors.Nodup) ∧
    ((validateEmail v).errors.length ≤ 1 ∧ (validatePhone v).errors.length ≤ 1 ∧
      (validatePassword v).errors.length ≤ 3) := by
  have hE := validateEmail_errors_cases v
  have hP := validatePhone_errors_cases v
  refine ⟨⟨?_, validatePassword_errors_sub v, ?_⟩, ⟨?_, ?_, ?_⟩, ⟨?_, ?_, ?_⟩⟩
  · rcases hE with h | h <;> rw [h] <;> simp [errorMessageValues]
  · rcases hP with h | h <;> rw [h] <;> simp [errorMessageValues]
  · rcases hE with h | h <;> rw [h] <;> simp
  · by_cases h8 : (normalizeInput v).length < 8 <;>
      by_cases hd : rsearch DIGIT_REGEX (normalizeInput v) = true <;>
        by_cases hs : rsearch PASSWORD_SPECIAL_REGEX (normalizeInput v) = true <;>
          simp [validatePassword, result, h8, hd, hs, ERROR_MESSAGES]
  · rcases hP with h | h <;> rw [h] <;> simp
  · rcases hE with h | h <;> rw [h] <;> simp
  · rcases hP with h | h <;> rw [h] <;> simp
  · by_cases h8 : (normalizeInput v).length < 8 <;>
      by_cases hd : rsearch DIGIT_REGEX (normalizeInput v) = true <;>
        by_cases hs : rsearch PASSWORD_SPECIAL_REGEX (normalizeInput v) = true <;>
          simp [validatePassword, result, h8, hd, hs]

theorem C3_email_characterization_witness :
    validateEmail .jsNull = ⟨false, [ERROR_MESSAGES.email_format]⟩ :=
  (C3_email_characterization .jsNull).2 (by
    rintro ⟨a, b, c, -, -, -, -, -, -, h⟩
    have hl := congrArg List.length h
    simp [normalizeInput] at hl
    omega)

theorem C4_phone_characterization_witness :
    validatePhone .jsNull = ⟨false, [ERROR_MESSAGES.phone_format]⟩ :=
  (C4_phone_characterization .jsNull).2 (by
    rintro ⟨d, ds, h, -⟩
    have hl := congrArg List.length h
    simp [normalizeInput] at hl)

theorem C5_special_whitelist_witness :
    ¬('!' = ' ' ∨ ('!' : Char).isAlpha = true ∨ ('!' : Char).isDigit = true) :=
  C5_special_whitelist.2.2.1 '!' (by decide)

theorem C6_shared_normalization_witness :
    validateEmail .jsNull = validateEmail .jsUndefined ∧
    validatePassword .jsNull = validatePassword .jsUndefined ∧
    validatePhone .jsNull = validatePhone .jsUndefined :=
  C6_shared_normalization.2.2 .jsNull .jsUndefined rfl

theorem C7_no_throw_errors_only_witness :
    (validateEmail JSValue.jsNull).errors ≠ [] ∧
    ERROR_MESSAGES.email_format ∈ errorMessageValues :=
  ⟨(C7_no_throw_errors_only .jsNull).1.1 (by decide),
   (C7_no_throw_errors_only .jsNull).1.2 ERROR_MESSAGES.email_format (by decide)⟩

theorem C9_error_lists_shape_witness :
    ERROR_MESSAGES.password_length ∈ errorMessageValues :=
  (C9_error_lists_shape .jsNull).1.2.1 ERROR_MESSAGES.password_length (by decide)
